import Mathlib

/-!
Verification of the hola-audio capture/control core.

Shallow embedding of `src/hola_audio/audio/capture.py` (class `AudioCapture`)
and `src/hola_audio/hotkey/manager.py` (function `_parse_hotkey`, class
`HotkeyManager`), together with theorems settling the behavioural claims of
the specification.

Modelling conventions:
* time (`time.monotonic()`) is a rational number passed explicitly to each
  operation that reads the clock;
* audio blocks (`indata`) are lists of rational samples;
* the comparison `rms > t` with `rms = sqrt(mean(block**2))` is expressed
  without square roots: for `t ≥ 0`, `sqrt m > t ↔ m > t^2`, and for `t < 0`
  it is always true since `sqrt m ≥ 0` (see `rmsGt`);
* the WAV artifact written by `_save_wav` is identified with the concatenated
  audio it contains (the uuid-based file name is abstracted away);
* side effects (the optional `on_recording_start` / `on_recording_stop` /
  `on_level_update` callbacks, file writes, log warnings) are returned as
  explicit event data.
-/

namespace HolaAudio

/-- Constructor parameters of `AudioCapture` that the control logic reads
(`capture.py` lines 26-41).  `sample_rate`, `channels`, `dtype` and
`output_dir` only parameterise the stream and the saved file, not the
control flow, and are omitted. -/
structure Config where
  max_duration : ℚ
  silence_threshold : ℚ
  silence_duration : ℚ
deriving DecidableEq

/-- The default constructor arguments (`capture.py` lines 28-33). -/
def defaultConfig : Config :=
  { max_duration := 120, silence_threshold := 1/100, silence_duration := 3 }

/-- Mutable state of an `AudioCapture` instance (`capture.py` lines 44-49):
`_recording`, `_frames`, `_stream` (modelled by whether a stream is
attached), `_start_time`, `_last_sound_time`. -/
structure CaptureState where
  recording : Bool
  frames : List (List ℚ)
  stream : Bool
  startTime : ℚ
  lastSoundTime : ℚ
deriving DecidableEq

/-- The state of a freshly constructed engine. -/
def initialState : CaptureState :=
  { recording := false, frames := [], stream := false, startTime := 0, lastSoundTime := 0 }

/-- Failure to open the input stream (`sd.InputStream(...)` raising inside
`start()`); the spec's error taxonomy calls this `DeviceError`. -/
inductive DeviceError
  | deviceError
deriving DecidableEq

/-- Mean of squares of a block, so that `rms = sqrt (rmsSq block)`
(`capture.py` line 161). -/
def rmsSq (block : List ℚ) : ℚ :=
  (block.map (fun x => x ^ 2)).sum / block.length

/-- The source comparison `rms > t` (line 167), expressed without square
roots: for `t ≥ 0`, `sqrt m > t ↔ m > t^2`; for `t < 0` it always holds
since `sqrt m ≥ 0`. -/
def rmsGt (block : List ℚ) (t : ℚ) : Bool :=
  decide (t < 0) || decide (rmsSq block > t ^ 2)

/-- The `elapsed` property (`capture.py` lines 62-66), with the clock read
passed in as `now`. -/
def elapsed (s : CaptureState) (now : ℚ) : ℚ :=
  if s.recording then now - s.startTime else 0

/-- Result of one `stop()` call (`capture.py` lines 93-117):
`notRecording` is the early return at line 98 (lock held, flag false);
`emptyCapture` is the return at line 108 (won the flip, empty buffer);
`saved audio` is the return at line 117 after `_save_wav`, where the
artifact is identified with the concatenated audio written to it. -/
inductive StopOutcome
  | notRecording
  | emptyCapture
  | saved (audio : List ℚ)
deriving DecidableEq

/-- The artifact path returned by `stop()`: `None` on both no-op paths. -/
def StopOutcome.artifact : StopOutcome → Option (List ℚ)
  | .saved audio => some audio
  | _ => none

/-- Whether the `stop()` path wrote a WAV file (`_save_wav` at line 111 runs
only on the `saved` path). -/
def StopOutcome.writesFile : StopOutcome → Bool
  | .saved _ => true
  | _ => false

/-- Whether the `stop()` path invoked the `on_recording_stop` observer
(lines 114-115 run only on the `saved` path). -/
def StopOutcome.emitsStopped : StopOutcome → Bool
  | .saved _ => true
  | _ => false

/-- The lock-protected prologue of `stop()` (lines 95-99): atomically check
the recording flag and flip it to false, reporting whether this caller won
the teardown. -/
def checkAndFlip (s : CaptureState) : Bool × CaptureState :=
  if s.recording then (true, { s with recording := false }) else (false, s)

/-- The winner's teardown (lines 101-117): detach the stream, then either
report an empty capture or concatenate the frames and save them.  Note the
source does not clear `_frames` here. -/
def teardown (s : CaptureState) : StopOutcome × CaptureState :=
  let s1 := { s with stream := false }
  if s1.frames = [] then (.emptyCapture, s1)
  else (.saved s1.frames.flatten, s1)

/-- `AudioCapture.stop()` (lines 93-117). -/
def stop (s : CaptureState) : StopOutcome × CaptureState :=
  let r := checkAndFlip s
  if r.1 then teardown r.2 else (.notRecording, r.2)

/-- `AudioCapture.cancel()` (lines 119-129): flip the flag, clear the
buffer, detach the stream; total, returns nothing. -/
def cancel (s : CaptureState) : CaptureState :=
  let s1 := { s with recording := false, frames := [] }
  { s1 with stream := false }

/-- `AudioCapture.start()` (lines 70-91).  `openFails` says whether
`sd.InputStream(...)` raises.  Returns the surfaced outcome, the new state
and whether the `on_recording_start` observer fired.  The source sets
`_recording = True` inside the lock *before* opening the stream and has no
exception handler, so on a failed open the flag stays true. -/
def start (s : CaptureState) (now : ℚ) (openFails : Bool) :
    Except DeviceError Unit × CaptureState × Bool :=
  if s.recording then (.ok (), s, false)
  else
    let s1 := { s with frames := [], recording := true,
                       startTime := now, lastSoundTime := now }
    if openFails then (.error .deviceError, s1, false)
    else (.ok (), { s1 with stream := true }, true)

/-- Observable effects of one `_audio_callback` invocation:
whether `on_level_update` was invoked (line 162-163) and whether an
asynchronous `stop()` thread was spawned (line 172 or 178). -/
structure CallbackEffects where
  levelEmitted : Bool
  stopScheduled : Bool
deriving DecidableEq

/-- `AudioCapture._audio_callback` (lines 150-178), with the clock read
`time.monotonic()` passed in as `now` (the source reads the clock once at
line 166 and again inside `elapsed`; the two reads are identified). -/
def audioCallback (cfg : Config) (now : ℚ) (block : List ℚ) (s : CaptureState) :
    CaptureState × CallbackEffects :=
  if ¬ s.recording then (s, { levelEmitted := false, stopScheduled := false })
  else
    let s1 := { s with frames := s.frames ++ [block] }
    let s2 := if rmsGt block cfg.silence_threshold
              then { s1 with lastSoundTime := now } else s1
    if cfg.silence_duration > 0 ∧ now - s2.lastSoundTime > cfg.silence_duration then
      (s2, { levelEmitted := true, stopScheduled := true })
    else if cfg.max_duration > 0 ∧ elapsed s2 now > cfg.max_duration then
      (s2, { levelEmitted := true, stopScheduled := true })
    else
      (s2, { levelEmitted := true, stopScheduled := false })

/-- Feed a sequence of timestamped blocks through the callback; the flag
records whether any invocation scheduled an asynchronous `stop()`. -/
def feedBlocks (cfg : Config) : CaptureState → List (ℚ × List ℚ) → CaptureState × Bool
  | s, [] => (s, false)
  | s, (t, b) :: rest =>
    let r := audioCallback cfg t b s
    let r2 := feedBlocks cfg r.1 rest
    (r2.1, r.2.stopScheduled || r2.2)

/-! ### Interleaving model of concurrent `stop()` callers

Each caller of `stop()` executes the lock-protected check-and-flip
(`checkAndFlip`, one atomic step — the mutex serialises it) and, only if it
won, the teardown/save suffix (`teardown`).  The teardown runs outside the
lock in the source, but it is modelled as one step because among concurrent
`stop()` callers only the single winner ever touches the stream or reads
the frames — a loser performs no action after its atomic section — so no
other caller's step can interleave observably with it. -/

/-- Program counter of one `stop()` caller. -/
inductive StopPC
  | ready
  | winner
  | done
deriving DecidableEq

/-- One `stop()` caller: its program counter and, once finished, its
return value. -/
structure StopThread where
  pc : StopPC
  res : Option StopOutcome
deriving DecidableEq

/-- A caller that has not yet entered `stop()`. -/
def StopThread.init : StopThread := { pc := .ready, res := none }

/-- One small step of a `stop()` caller against the shared engine state. -/
def stepThread (g : CaptureState) (t : StopThread) : CaptureState × StopThread :=
  match t.pc with
  | .ready =>
    let r := checkAndFlip g
    if r.1 then (r.2, { pc := .winner, res := none })
    else (r.2, { pc := .done, res := some .notRecording })
  | .winner =>
    let r := teardown g
    (r.2, { pc := .done, res := some r.1 })
  | .done => (g, t)

/-- Shared engine state plus the set of concurrent `stop()` callers. -/
structure StopRace where
  global : CaptureState
  threads : List StopThread
deriving DecidableEq

/-- Let caller `i` take one step (out-of-range indices are no-ops). -/
def raceStep (r : StopRace) (i : ℕ) : StopRace :=
  match r.threads[i]? with
  | none => r
  | some t =>
    let s := stepThread r.global t
    { global := s.1, threads := r.threads.set i s.2 }

/-- Run the race under an arbitrary schedule (list of caller indices). -/
def runRace (r : StopRace) : List ℕ → StopRace
  | [] => r
  | i :: σ => runRace (raceStep r i) σ

/-- A caller currently holds the win: it has flipped the flag and not yet
finished, or it finished with the artifact `a`. -/
def holdsWin (a : List ℚ) (t : StopThread) : Bool :=
  decide (t.pc = .winner) || decide (t.res = some (.saved a))

/-- Reachable-state invariant of the stop race, for an initial frame buffer
`F ≠ []`: the frame buffer never changes, the recording flag acts as a
token transferred to exactly one winner, every caller is in one of four
legal configurations, and while the flag is still true no caller has moved. -/
def RaceInv (F : List (List ℚ)) (r : StopRace) : Prop :=
  r.global.frames = F ∧
  r.threads.countP (holdsWin F.flatten) + (if r.global.recording then 1 else 0) = 1 ∧
  (∀ t ∈ r.threads,
    (t.pc = .ready ∧ t.res = none) ∨ (t.pc = .winner ∧ t.res = none) ∨
    (t.pc = .done ∧ t.res = some .notRecording) ∨
    (t.pc = .done ∧ t.res = some (.saved F.flatten))) ∧
  (r.global.recording = true → ∀ t ∈ r.threads, t.pc = .ready)

/-! ### Hotkey manager (`src/hola_audio/hotkey/manager.py`)

Keys are the subset of `pynput.keyboard.Key` values that the manager's code
and the platform listener can exchange, plus character keys
(`keyboard.KeyCode.from_char`). -/

/-- Key identifiers delivered by the `pynput` listener and produced by
`_parse_hotkey`. -/
inductive Key
  | ctrl_l | ctrl_r
  | shift_l | shift_r
  | alt_l | alt_r | alt_gr
  | cmd | cmd_l | cmd_r
  | esc | space | tab | enter | backspace | delete
  | char (c : Char)
deriving DecidableEq

/-- The `_MODIFIER_MAP` of `_parse_hotkey` (`manager.py` lines 29-35);
`darwin` is `platform.system() == "Darwin"`. -/
def modifierMap (darwin : Bool) : List (String × Key) :=
  [("<ctrl>", .ctrl_l), ("<shift>", .shift_l), ("<alt>", .alt_l),
   ("<cmd>", if darwin then .cmd else .ctrl_l),
   ("<super>", if darwin then .cmd else .ctrl_l)]

/-- The `_SPECIAL_MAP` of `_parse_hotkey` (lines 36-45). -/
def specialMap : List (String × Key) :=
  [("<escape>", .esc), ("<esc>", .esc), ("<space>", .space), ("<tab>", .tab),
   ("<enter>", .enter), ("<return>", .enter), ("<backspace>", .backspace),
   ("<delete>", .delete)]

/-- Classification of one token by `_parse_hotkey`'s loop body (lines
50-58): modifier map, then special map, then single character; `none`
means the unknown-token branch (warning logged, token dropped). -/
def parseToken (darwin : Bool) (part : String) : Option Key :=
  match (modifierMap darwin).lookup part with
  | some k => some k
  | none =>
    match specialMap.lookup part with
    | some k => some k
    | none =>
      match part.toList with
      | [c] => some (.char c)
      | _ => none

/-- Python `str.split("+")` over the character list: every occurrence of
`+` separates two (possibly empty) tokens. -/
def splitOnPlus : List Char → List (List Char)
  | [] => [[]]
  | c :: cs =>
    let r := splitOnPlus cs
    if c = '+' then [] :: r
    else
      match r with
      | [] => [[c]]
      | t :: ts => (c :: t) :: ts

/-- Python `str.strip()`: drop whitespace from both ends. -/
def pyStrip (cs : List Char) : List Char :=
  ((cs.dropWhile Char.isWhitespace).reverse.dropWhile Char.isWhitespace).reverse

/-- Python `str.lower()` over the character list. -/
def pyLower (cs : List Char) : List Char :=
  cs.map Char.toLower

/-- The token list of a hotkey string (line 47):
`[p.strip().lower() for p in hotkey_str.split("+")]`. -/
def hotkeyParts (s : String) : List String :=
  (splitOnPlus s.toList).map (fun t => String.mk (pyLower (pyStrip t)))

/-- The loop of `_parse_hotkey` over the token list: each known token is
added to the key set (Python `set.add`; `Finset.insert` commutes, so the
iteration direction is immaterial to the resulting set), each unknown
token is warned about and dropped.  Warnings keep the token order. -/
def parseParts (darwin : Bool) : List String → Finset Key × List String
  | [] => (∅, [])
  | p :: rest =>
    let acc := parseParts darwin rest
    match parseToken darwin p with
    | some k => (insert k acc.1, acc.2)
    | none => (acc.1, p :: acc.2)

/-- `_parse_hotkey` (lines 21-60): the key set of a binding string,
together with the unknown tokens that were warned about and dropped. -/
def parseHotkey (darwin : Bool) (s : String) : Finset Key × List String :=
  parseParts darwin (hotkeyParts s)

/-- State of a `HotkeyManager`: the ordered name → key-set bindings dict
and the live pressed-key set. -/
structure HotkeyState where
  bindings : List (String × Finset Key)
  pressed : Finset Key
deriving DecidableEq

/-- A manager with no bindings and nothing pressed. -/
def emptyManager : HotkeyState := { bindings := [], pressed := ∅ }

/-- Python dict assignment `self._bindings[name] = ...`: replace in place,
else append. -/
def setBinding : List (String × Finset Key) → String → Finset Key →
    List (String × Finset Key)
  | [], nm, ks => [(nm, ks)]
  | (nm', ks') :: rest, nm, ks =>
    if nm' = nm then (nm, ks) :: rest else (nm', ks') :: setBinding rest nm ks

/-- `HotkeyManager.register` (lines 73-83): parse the string and store the
binding under `name`; also returns the parse warnings (the registration
happens regardless of them). -/
def register (darwin : Bool) (st : HotkeyState) (name : String) (hotkeyStr : String) :
    HotkeyState × List String :=
  let p := parseHotkey darwin hotkeyStr
  ({ st with bindings := setBinding st.bindings name p.1 }, p.2)

/-- `HotkeyManager._normalize_key` (lines 134-144): fold right-hand control,
shift and alt (and AltGr) onto the left-hand key; every other key — note,
`cmd_r` included — is returned unchanged. -/
def normalizeKey : Key → Key
  | .ctrl_r => .ctrl_l
  | .shift_r => .shift_l
  | .alt_r => .alt_l
  | .alt_gr => .alt_l
  | k => k

/-- `HotkeyManager._on_press` (lines 146-156): normalize, insert into the
pressed set, then fire (dispatch on a worker thread) every binding whose
key set is contained in the pressed set.  Returns the names fired, in
binding order. -/
def onPress (st : HotkeyState) (k : Key) : HotkeyState × List String :=
  let pressed := insert (normalizeKey k) st.pressed
  (({ st with pressed := pressed }),
   ((st.bindings.filter (fun b => decide (b.2 ⊆ pressed))).map (fun b => b.1)))

/-- `HotkeyManager._on_release` (lines 158-161): normalize and discard from
the pressed set; never fires anything. -/
def onRelease (st : HotkeyState) (k : Key) : HotkeyState :=
  { st with pressed := st.pressed.erase (normalizeKey k) }

/-- A keyboard event delivered by the listener. -/
inductive KeyEvent
  | press (k : Key)
  | release (k : Key)
deriving DecidableEq

/-- Run the listener over a sequence of events, concatenating the names of
the bindings fired, in order. -/
def runEvents (st : HotkeyState) : List KeyEvent → HotkeyState × List String
  | [] => (st, [])
  | .press k :: evs =>
    let r := onPress st k
    let r2 := runEvents r.1 evs
    (r2.1, r.2 ++ r2.2)
  | .release k :: evs => runEvents (onRelease st k) evs

/-- Modelled from the spec (amended firing law): the number of times a
chord `ch` fires over an event sequence is the number of press events after
which `ch` is contained in the pressed set.  Used as the specification side
of the refinement theorem for the hotkey firing discipline. -/
def specFireCount (ch : Finset Key) (pressed : Finset Key) : List KeyEvent → ℕ
  | [] => 0
  | .press k :: evs =>
    let pressed2 := insert (normalizeKey k) pressed
    (if ch ⊆ pressed2 then 1 else 0) + specFireCount ch pressed2 evs
  | .release k :: evs => specFireCount ch (pressed.erase (normalizeKey k)) evs

/-! ### Concrete scenarios used by the testable-property claims -/

/-- Engine state immediately after a successful `start()` at time 0. -/
def recordingExample : CaptureState := (start initialState 0 false).2.1

/-- One loud block (RMS 1) at time 0, then RMS-0 blocks until 3.1 seconds
after the last loud block (`silence_duration = 3.0`). -/
def silenceTrace : List (ℚ × List ℚ) :=
  [(0, [1]), (1, [0]), (2, [0]), (3, [0]), (31/10, [0])]

/-- Loud blocks (RMS 1) throughout, well below `max_duration = 120`. -/
def loudTrace : List (ℚ × List ℚ) :=
  [(0, [1]), (1, [1]), (2, [1]), (3, [1]), (4, [1])]

/-- A concrete recording session (one buffered block) used to exercise the
stop race. -/
def raceExampleState : CaptureState :=
  { recording := true, frames := [[1]], stream := true, startTime := 0, lastSoundTime := 0 }

/-! ## Theorems -/

/-- Exchanging one element of a list changes `countP` by the difference of
the predicate on the old and new element. -/
theorem countP_set_exchange (p : StopThread → Bool) (l : List StopThread) (i : ℕ)
    (t t' : StopThread) (h : l[i]? = some t) :
    (l.set i t').countP p + (if p t then 1 else 0) = l.countP p + (if p t' then 1 else 0) := by
  induction l generalizing i with
  | nil => simp at h
  | cons a l ih =>
    cases i with
    | zero =>
      simp only [List.getElem?_cons_zero, Option.some.injEq] at h
      subst h
      simp [List.countP_cons]
      omega
    | succ n =>
      simp only [List.getElem?_cons_succ] at h
      have hx := ih n h
      simp only [List.set_cons_succ, List.countP_cons]
      omega

/-- Writing back the element already at position `i` is the identity. -/
theorem set_getElem?_self (l : List StopThread) (i : ℕ) (t : StopThread)
    (h : l[i]? = some t) : l.set i t = l := by
  induction l generalizing i with
  | nil => simp at h
  | cons a l ih =>
    cases i with
    | zero => simp_all
    | succ n => simp_all

/-- One interleaving step of any caller preserves the stop-race invariant. -/
theorem raceInv_step (F : List (List ℚ)) (hF : F ≠ []) (r : StopRace) (i : ℕ)
    (h : RaceInv F r) : RaceInv F (raceStep r i) := by
  obtain ⟨hframes, hcount, hok, hready⟩ := h
  cases hget : r.threads[i]? with
  | none =>
    simpa [raceStep, hget] using ⟨hframes, hcount, hok, hready⟩
  | some t =>
    have htmem : t ∈ r.threads := by
      obtain ⟨hlt, hEq⟩ := List.getElem?_eq_some_iff.mp hget
      exact hEq ▸ List.getElem_mem hlt
    rcases hok t htmem with ⟨hpc, hres⟩ | ⟨hpc, hres⟩ | ⟨hpc, hres⟩ | ⟨hpc, hres⟩
    · cases hrec : r.global.recording with
      | true =>
        have hstep : raceStep r i =
            { global := { r.global with recording := false },
              threads := r.threads.set i { pc := .winner, res := none } } := by
          simp [raceStep, hget, stepThread, hpc, checkAndFlip, hrec]
        rw [hstep]
        have hx := countP_set_exchange (holdsWin F.flatten) r.threads i t
          { pc := .winner, res := none } hget
        refine ⟨hframes, ?_, ?_, ?_⟩
        · have hft : holdsWin F.flatten t = false := by simp [holdsWin, hpc, hres]
          have hft2 : holdsWin F.flatten { pc := .winner, res := none } = true := by
            simp [holdsWin]
          rw [hft, hft2] at hx
          rw [hrec, if_pos rfl] at hcount
          simp at hx ⊢
          omega
        · intro t2 ht2
          rcases List.mem_or_eq_of_mem_set ht2 with h2 | h2
          · exact hok t2 h2
          · subst h2; right; left; exact ⟨rfl, rfl⟩
        · intro habs; simp at habs
      | false =>
        have hstep : raceStep r i =
            { global := r.global,
              threads := r.threads.set i { pc := .done, res := some .notRecording } } := by
          simp [raceStep, hget, stepThread, hpc, checkAndFlip, hrec]
        rw [hstep]
        have hx := countP_set_exchange (holdsWin F.flatten) r.threads i t
          { pc := .done, res := some .notRecording } hget
        refine ⟨hframes, ?_, ?_, ?_⟩
        · have hft : holdsWin F.flatten t = false := by simp [holdsWin, hpc, hres]
          have hft2 : holdsWin F.flatten { pc := .done, res := some .notRecording } = false := by
            simp [holdsWin]
          rw [hft, hft2] at hx
          simp [hrec] at hx hcount ⊢
          omega
        · intro t2 ht2
          rcases List.mem_or_eq_of_mem_set ht2 with h2 | h2
          · exact hok t2 h2
          · subst h2; right; right; left; exact ⟨rfl, rfl⟩
        · rw [hrec]; intro habs; cases habs
    · have hwin : holdsWin F.flatten t = true := by simp [holdsWin, hpc]
      have hpos : 0 < r.threads.countP (holdsWin F.flatten) :=
        List.countP_pos_iff.mpr ⟨t, htmem, hwin⟩
      have hrec : r.global.recording = false := by
        cases hr : r.global.recording
        · rfl
        · rw [hr, if_pos rfl] at hcount; omega
      have hstep : raceStep r i =
          { global := { r.global with stream := false },
            threads := r.threads.set i { pc := .done, res := some (.saved F.flatten) } } := by
        simp [raceStep, hget, stepThread, hpc, teardown, hframes, hF]
      rw [hstep]
      have hx := countP_set_exchange (holdsWin F.flatten) r.threads i t
        { pc := .done, res := some (.saved F.flatten) } hget
      refine ⟨hframes, ?_, ?_, ?_⟩
      · have hft : holdsWin F.flatten t = true := by simp [holdsWin, hpc]
        have hft2 : holdsWin F.flatten { pc := .done, res := some (.saved F.flatten) } = true := by
          simp [holdsWin]
        rw [hft, hft2] at hx
        simp [hrec] at hx hcount ⊢
        omega
      · intro t2 ht2
        rcases List.mem_or_eq_of_mem_set ht2 with h2 | h2
        · exact hok t2 h2
        · subst h2; right; right; right; exact ⟨rfl, rfl⟩
      · intro habs; simp [hrec] at habs
    · have hstep : raceStep r i = r := by
        simp [raceStep, hget, stepThread, hpc, set_getElem?_self r.threads i t hget]
      rw [hstep]
      exact ⟨hframes, hcount, hok, hready⟩
    · have hstep : raceStep r i = r := by
        simp [raceStep, hget, stepThread, hpc, set_getElem?_self r.threads i t hget]
      rw [hstep]
      exact ⟨hframes, hcount, hok, hready⟩

/-- The stop-race invariant is preserved by every schedule. -/
theorem raceInv_runRace (F : List (List ℚ)) (hF : F ≠ []) (σ : List ℕ) (r : StopRace)
    (h : RaceInv F r) : RaceInv F (runRace r σ) := by
  induction σ generalizing r with
  | nil => exact h
  | cons i σ ih => exact ih _ (raceInv_step F hF r i h)

/-- Scheduling steps never changes the number of callers. -/
theorem runRace_length (σ : List ℕ) (r : StopRace) :
    (runRace r σ).threads.length = r.threads.length := by
  induction σ generalizing r with
  | nil => rfl
  | cons i σ ih =>
    rw [runRace, ih]
    cases hget : r.threads[i]? <;> simp [raceStep, hget]

/-- The stop-race invariant holds before any caller has run. -/
theorem raceInv_init (s0 : CaptureState) (n : ℕ) (hrec : s0.recording = true) :
    RaceInv s0.frames { global := s0, threads := List.replicate n .init } := by
  refine ⟨rfl, ?_, ?_, ?_⟩
  · have hz : (List.replicate n StopThread.init).countP (holdsWin s0.frames.flatten) = 0 := by
      rw [List.countP_eq_zero]
      intro t ht
      rw [List.eq_of_mem_replicate ht]
      simp [holdsWin, StopThread.init]
    rw [hz, hrec]
    simp
  · intro t ht
    rw [List.eq_of_mem_replicate ht]
    left; exact ⟨rfl, rfl⟩
  · intro _ t ht
    rw [List.eq_of_mem_replicate ht]
    rfl

/-- C1: for a session that is Recording with a non-empty frame buffer,
among `n ≥ 1` concurrent callers of `stop()` interleaved under an
arbitrary schedule, once every caller has finished exactly one returned
the artifact (the concatenated buffered audio) and every other caller
observed "not recording" and returned no artifact.  The enforcement is the
atomic check-and-flip of the recording flag under the engine's mutex,
modelled by the atomic `checkAndFlip` step of each caller. -/
theorem stop_race_exactly_one_winner (s0 : CaptureState) (n : ℕ) (σ : List ℕ)
    (hrec : s0.recording = true) (hfr : s0.frames ≠ []) (hn : 1 ≤ n)
    (hdone : ∀ t ∈ (runRace { global := s0, threads := List.replicate n .init } σ).threads,
      t.pc = .done) :
    ((runRace { global := s0, threads := List.replicate n .init } σ).threads.countP
        (fun t => decide (t.res = some (.saved s0.frames.flatten))) = 1) ∧
    ((runRace { global := s0, threads := List.replicate n .init } σ).threads.countP
        (fun t => decide (t.res = some .notRecording)) = n - 1) := by
  set rf := runRace { global := s0, threads := List.replicate n .init } σ with hrf
  obtain ⟨hframes, hcount, hok, hready⟩ :=
    raceInv_runRace s0.frames hfr σ _ (raceInv_init s0 n hrec)
  rw [← hrf] at hframes hcount hok hready
  have hlen : rf.threads.length = n := by
    rw [hrf, runRace_length]; simp
  have hrecf : rf.global.recording = false := by
    cases hr : rf.global.recording
    · rfl
    · exfalso
      obtain ⟨t, ht⟩ : ∃ t, t ∈ rf.threads := by
        cases hthreads : rf.threads with
        | nil => rw [hthreads] at hlen; simp at hlen; omega
        | cons a l => exact ⟨a, hthreads ▸ List.mem_cons_self a l⟩
      have h1 := hready hr t ht
      have h2 := hdone t ht
      rw [h1] at h2
      cases h2
  rw [hrecf, if_neg Bool.false_ne_true] at hcount
  have hw : rf.threads.countP (holdsWin s0.frames.flatten) =
      rf.threads.countP (fun t => decide (t.res = some (.saved s0.frames.flatten))) := by
    refine List.countP_congr ?_
    intro t ht
    have hd := hdone t ht
    simp [holdsWin, hd]
  have hsplit := List.length_eq_countP_add_countP
    (p := fun t : StopThread => decide (t.res = some (.saved s0.frames.flatten))) rf.threads
  have hq : rf.threads.countP
      (fun a => decide (¬ (decide (a.res = some (.saved s0.frames.flatten)) = true))) =
      rf.threads.countP (fun t => decide (t.res = some .notRecording)) := by
    refine List.countP_congr ?_
    intro t ht
    have hd := hdone t ht
    rcases hok t ht with ⟨hpc, _⟩ | ⟨hpc, _⟩ | ⟨_, hres⟩ | ⟨_, hres⟩
    · rw [hd] at hpc; cases hpc
    · rw [hd] at hpc; cases hpc
    · simp [hres]
    · simp [hres]
  constructor
  · omega
  · rw [← hq]
    omega

/-- Witness for C1: two concurrent `stop()` callers (e.g. a manual stop and
a silence auto-stop) under the schedule where caller 0 flips the flag,
caller 1 then observes "not recording", and caller 0 finishes the
teardown: one artifact, one no-op. -/
theorem stop_race_exactly_one_winner_witness :
    ((runRace { global := raceExampleState, threads := List.replicate 2 .init }
        [0, 1, 0]).threads.countP
        (fun t => decide (t.res = some (.saved raceExampleState.frames.flatten))) = 1) ∧
    ((runRace { global := raceExampleState, threads := List.replicate 2 .init }
        [0, 1, 0]).threads.countP
        (fun t => decide (t.res = some .notRecording)) = 2 - 1) :=
  stop_race_exactly_one_winner raceExampleState 2 [0, 1, 0] rfl (by decide) (by decide)
    (by decide)

/-- C3: `stop()` on an engine whose recording flag is false is a no-op: it
returns no artifact (`None`), writes no file, emits no `on_recording_stop`
side effect, and leaves the whole engine state — recording flag, frame
buffer, stream — unchanged. -/
theorem stop_idle_noop (s : CaptureState) (h : s.recording = false) :
    stop s = (.notRecording, s) ∧
    (stop s).1.artifact = none ∧
    (stop s).1.writesFile = false ∧
    (stop s).1.emitsStopped = false := by
  simp [stop, checkAndFlip, h, StopOutcome.artifact, StopOutcome.writesFile,
    StopOutcome.emitsStopped]

/-- Witness for C3 at the freshly constructed (Idle) engine. -/
theorem stop_idle_noop_witness :
    initialState.recording = false ∧ stop initialState = (.notRecording, initialState) :=
  ⟨rfl, (stop_idle_noop initialState rfl).1⟩

/-- C4: from every prior state, `cancel()` leaves the engine Idle with an
empty frame buffer and no stream attached.  `cancel` is a total function
returning no artifact and no file-write event, which models "never
persists, never fails". -/
theorem cancel_always_resets (s : CaptureState) :
    (cancel s).recording = false ∧ (cancel s).frames = [] ∧ (cancel s).stream = false := by
  simp [cancel]

/-- C6: a `stop()` that wins the check-and-flip but finds the frame buffer
empty completes normally with the `emptyCapture` outcome: no artifact, no
file written, flag flipped to false and stream detached. -/
theorem stop_empty_capture (s : CaptureState) (h : s.recording = true) (hf : s.frames = []) :
    stop s = (.emptyCapture, { s with recording := false, stream := false }) ∧
    (stop s).1.artifact = none ∧
    (stop s).1.writesFile = false := by
  simp [stop, checkAndFlip, teardown, h, hf, StopOutcome.artifact, StopOutcome.writesFile]

/-- Witness for C6: stopping right after `start()` delivered no frames. -/
theorem stop_empty_capture_witness :
    recordingExample.recording = true ∧ recordingExample.frames = [] ∧
    (stop recordingExample).1.artifact = none :=
  ⟨rfl, rfl, (stop_empty_capture recordingExample rfl rfl).2.1⟩

/-- C10: an `_audio_callback` invocation while the recording flag is false
changes nothing: the state (frame buffer, last-loud-time, all fields) is
returned untouched, no level update is emitted and no asynchronous stop is
scheduled. -/
theorem callback_not_recording_noop (cfg : Config) (now : ℚ) (block : List ℚ)
    (s : CaptureState) (h : s.recording = false) :
    audioCallback cfg now block s = (s, { levelEmitted := false, stopScheduled := false }) := by
  simp [audioCallback, h]

/-- Witness for C10 at the initial state. -/
theorem callback_not_recording_noop_witness :
    initialState.recording = false ∧
    audioCallback defaultConfig 5 [1] initialState =
      (initialState, { levelEmitted := false, stopScheduled := false }) :=
  ⟨rfl, callback_not_recording_noop defaultConfig 5 [1] initialState rfl⟩

/-- C2 (code bug): when opening the input stream fails, `start()` surfaces
the `DeviceError` to the caller, but the session does *not* remain Idle:
the source sets `_recording = True` inside the lock before `sd.InputStream`
is constructed and installs no exception handler, so the failed call leaves
the recording flag true with no stream attached (and a follow-up `start()`
is ignored as "already recording").  This theorem evaluates the model at
the failing input. -/
theorem start_open_failure_not_idle :
    (start initialState 0 true).1 = .error .deviceError ∧
    (start initialState 0 true).2.1.recording = true ∧
    (start initialState 0 true).2.1.stream = false ∧
    (start (start initialState 0 true).2.1 1 false).2.1 = (start initialState 0 true).2.1 := by
  refine ⟨rfl, rfl, rfl, ?_⟩
  simp [start, initialState]

/-- C5: while recording, one `_audio_callback` invocation schedules an
asynchronous `stop()` if and only if (silence auto-stop) `silence_duration
> 0` and the time since the last block whose RMS exceeded
`silence_threshold` (the current block included, as the source updates
`_last_sound_time` before the check) exceeds `silence_duration`, or
(duration auto-stop) `max_duration > 0` and the elapsed time since start
exceeds `max_duration`.  In particular, with `silence_duration = 3.0` and
`silence_threshold = 0.01`, RMS-0 blocks reaching 3.1 s after the last
loud block trigger an automatic stop, while continuously loud blocks never
do. -/
theorem callback_autostop_iff :
    (∀ (cfg : Config) (now : ℚ) (block : List ℚ) (s : CaptureState), s.recording = true →
      (((audioCallback cfg now block s).2.stopScheduled = true) ↔
        ((cfg.silence_duration > 0 ∧
            now - (if rmsGt block cfg.silence_threshold then now else s.lastSoundTime) >
              cfg.silence_duration) ∨
          (cfg.max_duration > 0 ∧ now - s.startTime > cfg.max_duration)))) ∧
    (feedBlocks defaultConfig recordingExample silenceTrace).2 = true ∧
    (feedBlocks defaultConfig recordingExample loudTrace).2 = false := by
  refine ⟨?_, ?_, ?_⟩
  · intro cfg now block s h
    by_cases hr : rmsGt block cfg.silence_threshold
    · simp only [audioCallback, h, hr, elapsed]
      split_ifs <;> simp_all
    · simp only [audioCallback, h, hr, elapsed]
      split_ifs <;> simp_all
  · norm_num [feedBlocks, audioCallback, recordingExample, start, initialState, rmsGt,
      rmsSq, elapsed, defaultConfig, silenceTrace]
  · norm_num [feedBlocks, audioCallback, recordingExample, start, initialState, rmsGt,
      rmsSq, elapsed, defaultConfig, loudTrace]

/-- Witness for C5: a silent block 4 s after the last loud time schedules a
stop under the default configuration. -/
theorem callback_autostop_iff_witness :
    recordingExample.recording = true ∧
    (((audioCallback defaultConfig 4 [0] recordingExample).2.stopScheduled = true) ↔
      ((defaultConfig.silence_duration > 0 ∧
          (4:ℚ) - (if rmsGt [0] defaultConfig.silence_threshold then 4
                   else recordingExample.lastSoundTime) > defaultConfig.silence_duration) ∨
        (defaultConfig.max_duration > 0 ∧
          (4:ℚ) - recordingExample.startTime > defaultConfig.max_duration))) :=
  ⟨rfl, callback_autostop_iff.1 defaultConfig 4 [0] recordingExample rfl⟩

/-- C7 counterexample: the source's `_on_press` fires every binding whose
key set is a subset of the pressed set on *every* press event, with no
rearm guard.  After `<ctrl>+<shift>+h` fires, a further press event for
`h` while all three keys stay held (e.g. OS key auto-repeat) fires the
action a second time — the claim that it fires exactly once and does not
refire until a member key is released is false. -/
theorem hotkey_refire_counterexample :
    ¬ (((runEvents
          { bindings := [("toggle", (parseHotkey false "<ctrl>+<shift>+h").1)], pressed := ∅ }
          [.press .ctrl_l, .press .shift_l, .press (.char 'h'),
           .press (.char 'h')]).2.count "toggle") = 1) ∧
    (((runEvents
          { bindings := [("toggle", (parseHotkey false "<ctrl>+<shift>+h").1)], pressed := ∅ }
          [.press .ctrl_l, .press .shift_l, .press (.char 'h'),
           .press (.char 'h')]).2.count "toggle") = 2) := by
  constructor <;> decide

/-- C7 amended: a registered chord's bound action fires at exactly those
press events after which the chord's full key set is contained in the
pressed set (`specFireCount`): it fires once when press(ctrl), press(shift),
press(h) establish the set, fires again after releasing and re-pressing a
member key, but also fires again on any further press event while the set
stays held. -/
theorem hotkey_fire_law :
    (∀ (nm : String) (ch pressed : Finset Key) (evs : List KeyEvent),
      ((runEvents { bindings := [(nm, ch)], pressed := pressed } evs).2.count nm) =
        specFireCount ch pressed evs) ∧
    (((runEvents
          { bindings := [("toggle", (parseHotkey false "<ctrl>+<shift>+h").1)], pressed := ∅ }
          [.press .ctrl_l, .press .shift_l, .press (.char 'h')]).2.count "toggle") = 1) ∧
    (((runEvents
          { bindings := [("toggle", (parseHotkey false "<ctrl>+<shift>+h").1)], pressed := ∅ }
          [.press .ctrl_l, .press .shift_l, .press (.char 'h'),
           .release (.char 'h'), .press (.char 'h')]).2.count "toggle") = 2) := by
  refine ⟨?_, by decide, by decide⟩
  intro nm ch pressed evs
  induction evs generalizing pressed with
  | nil => rfl
  | cons e evs ih =>
    cases e with
    | press k =>
      by_cases hsub : ch ⊆ insert (normalizeKey k) pressed
      · simp [runEvents, onPress, specFireCount, hsub, List.count_append, ih]
        omega
      · simp [runEvents, onPress, specFireCount, hsub, List.count_append, ih]
    | release k =>
      simp [runEvents, onRelease, specFireCount, ih]

/-- C8: an unknown token in a binding string is warned about and dropped,
and the binding still registers with the remaining keys.  Concretely,
`"<ctrl>+<unknown>+h"` yields exactly the key set `{ctrl_l, 'h'}` with the
warning `"<unknown>"`, on either platform; in general the parsed key set
equals that of the known tokens alone, and the warnings are exactly the
unknown tokens. -/
theorem unknown_token_dropped :
    (∀ darwin : Bool,
      (parseHotkey darwin "<ctrl>+<unknown>+h").1 = {Key.ctrl_l, Key.char 'h'} ∧
      (parseHotkey darwin "<ctrl>+<unknown>+h").2 = ["<unknown>"] ∧
      (register darwin emptyManager "toggle" "<ctrl>+<unknown>+h").1.bindings =
        [("toggle", (parseHotkey darwin "<ctrl>+<unknown>+h").1)]) ∧
    (∀ (darwin : Bool) (parts : List String),
      (parseParts darwin parts).1 =
        (parseParts darwin (parts.filter (fun p => (parseToken darwin p).isSome))).1 ∧
      (parseParts darwin parts).2 =
        parts.filter (fun p => (parseToken darwin p).isNone)) := by
  constructor
  · intro darwin
    cases darwin
    · exact ⟨Finset.Subset.antisymm (by decide) (by decide), by decide, rfl⟩
    · exact ⟨Finset.Subset.antisymm (by decide) (by decide), by decide, rfl⟩
  · intro darwin parts
    induction parts with
    | nil => exact ⟨rfl, rfl⟩
    | cons p rest ih =>
      cases htok : parseToken darwin p <;>
        simp [parseParts, htok, ih.1, ih.2]

/-- C9 counterexample: `_normalize_key` folds only the ctrl/shift/alt
right-hand variants; `cmd_r` is left unchanged, so on Darwin pressing the
right command key does not satisfy a binding registered with the
left-hand token `<cmd>` — the claim's "every modifier" is false. -/
theorem cmd_right_variant_counterexample :
    normalizeKey .cmd_r = .cmd_r ∧
    ¬ (((runEvents { bindings := [("toggle", (parseHotkey true "<cmd>").1)], pressed := ∅ }
          [.press .cmd_r]).2.count "toggle") = 1) ∧
    (((runEvents { bindings := [("toggle", (parseHotkey true "<cmd>").1)], pressed := ∅ }
          [.press .cmd_r]).2.count "toggle") = 0) := by
  refine ⟨rfl, by decide, by decide⟩

/-- C9 amended: for the ctrl, shift and alt modifiers (AltGr included),
right-hand variants are folded to the left-hand identifier before matching,
and `_parse_hotkey` registers the left-hand identifier, so pressing the
right-hand variant satisfies a chord registered with the left-hand token;
the cmd modifier is not folded. -/
theorem modifier_fold_law :
    normalizeKey .ctrl_r = .ctrl_l ∧ normalizeKey .shift_r = .shift_l ∧
    normalizeKey .alt_r = .alt_l ∧ normalizeKey .alt_gr = .alt_l ∧
    (∀ darwin : Bool,
      ((runEvents { bindings := [("toggle", (parseHotkey darwin "<ctrl>").1)], pressed := ∅ }
          [.press .ctrl_r]).2.count "toggle") = 1 ∧
      ((runEvents { bindings := [("toggle", (parseHotkey darwin "<shift>").1)], pressed := ∅ }
          [.press .shift_r]).2.count "toggle") = 1 ∧
      ((runEvents { bindings := [("toggle", (parseHotkey darwin "<alt>").1)], pressed := ∅ }
          [.press .alt_r]).2.count "toggle") = 1) := by
  refine ⟨rfl, rfl, rfl, rfl, ?_⟩
  intro darwin
  cases darwin
  · exact ⟨by decide, by decide, by decide⟩
  · exact ⟨by decide, by decide, by decide⟩

end HolaAudio
